import Mathlib

/-!
Verification of the smartcards synchronization engine.

The development shallowly embeds the sync-relevant parts of the source:

* the canonical serializer stableStringify (useAppSync.ts lines 6 to 23 and
  utils/helpers, together with a model of the JavaScript builtin
  JSON.stringify restricted to the JSON value domain);
* the Dropbox remote-store client saveData / loadData / getLatestRevision
  (useDropbox), with the conditional-write behaviour of the remote store
  itself modelled from the specification (the store is a third-party
  service, not repository code);
* the sync engine useAppSync (second revision: the one with
  lastServerRevision, hasConflict and resolveConflict): initial load,
  debounced autosave, drift poll checkForUpdates and conflict resolution,
  as pure step functions over an explicit state, returning the list of
  performed effects.

JavaScript values reachable by the serializer are modelled by the mutual
inductive family JVal / JArr / JObj below; JavaScript truthiness and the
option-like null / undefined distinction are modelled explicitly.
-/

set_option maxHeartbeats 1000000

namespace Smartcards

/-! ## JSON-like values

JVal models the JavaScript values the sync code passes around: null,
undefined, booleans, (integer) numbers, strings, arrays and plain objects.
Arrays and objects are separate mutual inductives so that every function
and proof below is plain structural recursion.
-/

mutual

inductive JVal : Type where
  | jnull : JVal
  | jundef : JVal
  | jbool : Bool → JVal
  | jnum : Int → JVal
  | jstr : String → JVal
  | jarr : JArr → JVal
  | jobj : JObj → JVal
deriving DecidableEq

inductive JArr : Type where
  | nil : JArr
  | cons : JVal → JArr → JArr
deriving DecidableEq

inductive JObj : Type where
  | nil : JObj
  | cons : String → JVal → JObj → JObj
deriving DecidableEq

end

open JVal

/-- Truthiness of a JavaScript value: null, undefined, false, 0 and the
empty string are falsy; every array and object is truthy. -/
def truthy : JVal → Bool
  | jnull => false
  | jundef => false
  | jbool b => b
  | jnum n => n != 0
  | jstr s => s != ""
  | jarr _ => true
  | jobj _ => true

/-- Model of the JavaScript expression a OR b (logical or on values):
the left value if truthy, otherwise the right one. -/
def jsOr (a b : JVal) : JVal := if truthy a then a else b

/-- Property lookup key on a JObj field list: value of the first field
named k, undefined when no such field exists. -/
def objGet (k : String) : JObj → JVal
  | .nil => jundef
  | .cons k1 v rest => if k1 = k then v else objGet k rest

/-- Model of the JavaScript property access v.k for the values the sync
code reads fields from: a real lookup on objects, undefined on every
non-object (the engine only dereferences values it has checked truthy). -/
def jsGet (v : JVal) (k : String) : JVal :=
  match v with
  | jobj fs => objGet k fs
  | _ => jundef

/-- Insertion of a field into an object field list sorted by key,
keeping ascending key order (String order models the default
JavaScript Array.prototype.sort comparator on the key array). -/
def objInsert (k : String) (v : JVal) : JObj → JObj
  | .nil => .cons k v .nil
  | .cons k1 v1 rest =>
      if k ≤ k1 then .cons k v (.cons k1 v1 rest)
      else .cons k1 v1 (objInsert k v rest)

/-- Update of a field list at a key, as a JavaScript object literal
spread does: an existing key keeps its position and receives the new
value, a fresh key is appended at the end. -/
def objSet (k : String) (v : JVal) : JObj → JObj
  | .nil => .cons k v .nil
  | .cons k1 v1 rest =>
      if k1 = k then .cons k1 v rest else .cons k1 v1 (objSet k v rest)

/-- Field list of a value under object spread: the fields of an object,
nothing for the primitives the engine can only feed in degenerate runs. -/
def asFields : JVal → JObj
  | jobj fs => fs
  | _ => .nil

mutual

/-- Model of the helper clean inside stableStringify (useAppSync.ts
lines 7 to 21): arrays map clean over their elements; objects emit their
keys in ascending order, dropping keys whose value is null or undefined
and cleaning the kept values; every other value is returned as is.
On objects the source sorts Object.keys and then filters; cleanFields
below computes the same field list (an insertion sort fused with the
filter), every JavaScript object having distinct keys. -/
def cleanVal : JVal → JVal
  | jnull => jnull
  | jundef => jundef
  | jbool b => jbool b
  | jnum n => jnum n
  | jstr s => jstr s
  | jarr xs => jarr (cleanArr xs)
  | jobj fs => jobj (cleanFields fs)

/-- Elementwise clean of an array (input.map(clean)). -/
def cleanArr : JArr → JArr
  | .nil => .nil
  | .cons x xs => .cons (cleanVal x) (cleanArr xs)

/-- Field-list part of clean: drop null and undefined values, clean the
kept values and place each field at its key-sorted position. -/
def cleanFields : JObj → JObj
  | .nil => .nil
  | .cons k v rest =>
      if v = jnull ∨ v = jundef then cleanFields rest
      else objInsert k (cleanVal v) (cleanFields rest)

end

/-! ## A model of JSON.stringify

The builtin is modelled character-list first.  Escaping follows the
ECMAScript QuoteJSONString algorithm on the characters that can occur in
a Lean string: quote and backslash are escaped with a backslash, the five
named control characters get their short escapes, the remaining control
characters get a uXXXX escape, and everything else is emitted verbatim.
Numbers are printed in decimal (the engine only ever serializes integer
numbers such as Date.now() timestamps).  A key with value undefined is
skipped inside an object; an undefined array element prints as null; a
call on undefined itself returns no string at all, as the builtin does.
-/

/-- Hexadecimal digit characters, lower case, as JSON.stringify emits
them in uXXXX escapes. -/
def hexDig : Nat → Char
  | 0 => '0' | 1 => '1' | 2 => '2' | 3 => '3' | 4 => '4'
  | 5 => '5' | 6 => '6' | 7 => '7' | 8 => '8' | 9 => '9'
  | 10 => 'a' | 11 => 'b' | 12 => 'c' | 13 => 'd' | 14 => 'e' | 15 => 'f'
  | _ => '0'

/-- Escape of a single character inside a JSON string literal. -/
def escChar (c : Char) : List Char :=
  if c = '"' then ['\\', '"']
  else if c = '\\' then ['\\', '\\']
  else if c = Char.ofNat 8 then ['\\', 'b']
  else if c = Char.ofNat 9 then ['\\', 't']
  else if c = Char.ofNat 10 then ['\\', 'n']
  else if c = Char.ofNat 12 then ['\\', 'f']
  else if c = Char.ofNat 13 then ['\\', 'r']
  else if c.toNat < 32 then
    ['\\', 'u', '0', '0', hexDig (c.toNat / 16), hexDig (c.toNat % 16)]
  else [c]

/-- Escape of a character list (the body of a string literal). -/
def escChars : List Char → List Char
  | [] => []
  | c :: cs => escChar c ++ escChars cs

/-- Value of a hexadecimal digit character (digits and the lower-case
letters the escape emits). -/
def hexVal (c : Char) : Option Nat :=
  if '0' ≤ c ∧ c ≤ '9' then some (c.toNat - 48)
  else if 'a' ≤ c ∧ c ≤ 'f' then some (c.toNat - 87)
  else none

/-- Character denoted by a short escape marker. -/
def unmark : Char → Option Char
  | '"' => some '"'
  | '\\' => some '\\'
  | 'b' => some (Char.ofNat 8)
  | 't' => some (Char.ofNat 9)
  | 'n' => some (Char.ofNat 10)
  | 'f' => some (Char.ofNat 12)
  | 'r' => some (Char.ofNat 13)
  | _ => none

/-- Decoder of a single escaped character at the head of a stream,
inverse to escChar; used only to prove the escape unambiguous. -/
def escDecode : List Char → Option (Char × List Char)
  | [] => none
  | c :: rest =>
      if c = '\\' then
        match rest with
        | 'u' :: _ :: _ :: h1 :: h2 :: rest2 =>
            match hexVal h1, hexVal h2 with
            | some a, some b => some (Char.ofNat (a * 16 + b), rest2)
            | _, _ => none
        | m :: rest2 => (unmark m).map (fun x => (x, rest2))
        | [] => none
      else some (c, rest)

/-- A complete JSON string literal: opening quote, escaped body,
closing quote. -/
def strLit (s : String) : List Char := '"' :: (escChars s.data ++ ['"'])

/-- Decimal digit characters. -/
def digitChar : Nat → Char
  | 0 => '0' | 1 => '1' | 2 => '2' | 3 => '3' | 4 => '4'
  | 5 => '5' | 6 => '6' | 7 => '7' | 8 => '8' | 9 => '9'
  | _ => '0'

/-- Fuel-indexed decimal printer for naturals, most significant digit
first; structural on the fuel so that concrete values reduce in the
kernel.  Any fuel of at least n + 1 yields the digits of n. -/
def natCharsF : Nat → Nat → List Char
  | 0, _ => []
  | f + 1, n =>
      if n < 10 then [digitChar n]
      else natCharsF f (n / 10) ++ [digitChar (n % 10)]

/-- Decimal digit characters of a natural number, most significant
first. -/
def natChars (n : Nat) : List Char := natCharsF (n + 1) n

/-- Decimal notation of an integer, with a leading minus sign when
negative, as JavaScript prints integral numbers. -/
def intChars (n : Int) : List Char :=
  if n < 0 then '-' :: natChars n.natAbs else natChars n.natAbs

mutual

/-- Serialization of a single value to characters.  An undefined value
prints as null, which is exactly what JSON.stringify does in the one
position where the sync code can feed it one directly (an array element);
object positions filter undefined out before this function sees it, and
the top level is handled by jsonStringify below. -/
def serVal : JVal → List Char
  | jnull => ['n', 'u', 'l', 'l']
  | jundef => ['n', 'u', 'l', 'l']
  | jbool false => ['f', 'a', 'l', 's', 'e']
  | jbool true => ['t', 'r', 'u', 'e']
  | jnum n => intChars n
  | jstr s => strLit s
  | jarr xs => '[' :: serArrHead xs
  | jobj fs => '{' :: serObjHead fs

/-- Elements of an array followed by the closing bracket; the first
element carries no separator. -/
def serArrHead : JArr → List Char
  | .nil => [']']
  | .cons x xs => serVal x ++ serArrTail xs

/-- Remaining elements of an array, each preceded by a comma, then the
closing bracket. -/
def serArrTail : JArr → List Char
  | .nil => [']']
  | .cons x xs => ',' :: (serVal x ++ serArrTail xs)

/-- Fields of an object followed by the closing brace; fields whose
value is undefined are skipped, as JSON.stringify omits them. -/
def serObjHead : JObj → List Char
  | .nil => ['}']
  | .cons k v fs =>
      if v = jundef then serObjHead fs
      else strLit k ++ (':' :: (serVal v ++ serObjTail fs))

/-- Remaining fields of an object, each preceded by a comma, skipping
undefined values, then the closing brace. -/
def serObjTail : JObj → List Char
  | .nil => ['}']
  | .cons k v fs =>
      if v = jundef then serObjTail fs
      else ',' :: (strLit k ++ (':' :: (serVal v ++ serObjTail fs)))

end

/-- Model of JSON.stringify at the top level: undefined has no
serialization (the builtin returns undefined, not a string); every other
value serializes to the character list above. -/
def jsonStringify (v : JVal) : Option String :=
  if v = jundef then none else some (String.mk (serVal v))

/-- Model of stableStringify (useAppSync.ts lines 6 to 23): stringify
the cleaned value.  The result is an optional string because the builtin
returns undefined when handed undefined; on every value the sync engine
actually hashes (always an object literal) the result is present. -/
def stableStringify (v : JVal) : Option String := jsonStringify (cleanVal v)

/-- String-valued restriction of stableStringify used to state engine
properties: on the object literals the engine hashes the optional wrapper
is always some, and this function is its content. -/
def hashStr (v : JVal) : String := String.mk (serVal (cleanVal v))

/-! ## Undef-occurrence predicates and the normalization of the spec -/

mutual

/-- Complete absence of undefined anywhere in a value. -/
def ufVal : JVal → Bool
  | jundef => false
  | jarr xs => ufArr xs
  | jobj fs => ufObj fs
  | _ => true

/-- Complete absence of undefined in an array. -/
def ufArr : JArr → Bool
  | .nil => true
  | .cons x xs => ufVal x && ufArr xs

/-- Complete absence of undefined in a field list. -/
def ufObj : JObj → Bool
  | .nil => true
  | .cons _ v fs => ufVal v && ufObj fs

end

mutual

/-- Absence of undefined as an array element, anywhere in a value;
undefined may still appear as an object field value (where both the
cleaner and JSON.stringify drop the field). -/
def nuaVal : JVal → Bool
  | jarr xs => nuaArr xs
  | jobj fs => nuaObj fs
  | _ => true

/-- Array part of nuaVal: no element is undefined, recursively. -/
def nuaArr : JArr → Bool
  | .nil => true
  | .cons x xs => !(x == jundef) && nuaVal x && nuaArr xs

/-- Field-list part of nuaVal. -/
def nuaObj : JObj → Bool
  | .nil => true
  | .cons _ v fs => nuaVal v && nuaObj fs

end

mutual

/-- Normal form named by the specification: values are equal after
recursively dropping object keys whose value is null or undefined and
ignoring object key order (fields placed in ascending key order), with
array order and all remaining leaves preserved. -/
def specNormalize : JVal → JVal
  | jnull => jnull
  | jundef => jundef
  | jbool b => jbool b
  | jnum n => jnum n
  | jstr s => jstr s
  | jarr xs => jarr (specNormArr xs)
  | jobj fs => jobj (specNormFields fs)

/-- Array part of specNormalize. -/
def specNormArr : JArr → JArr
  | .nil => .nil
  | .cons x xs => .cons (specNormalize x) (specNormArr xs)

/-- Field part of specNormalize: drop null and undefined values, place
the normalized survivors in ascending key order. -/
def specNormFields : JObj → JObj
  | .nil => .nil
  | .cons k v rest =>
      if v = jnull ∨ v = jundef then specNormFields rest
      else objInsert k (specNormalize v) (specNormFields rest)

end

/-! ## The sync engine

The engine (useAppSync, second revision) is modelled as pure step
functions over an explicit state.  Each step returns the successor
state, the successor local snapshot where the step may call
loadDataStore, and the list of effects it performed.  The remote side
is an explicit environment: the revision getLatestRevision would
report, the content a download would return, and the outcome of an
upload.
-/

/-- Effects a step can perform, in order. -/
inductive Action : Type where
  | getLatestRev : Action
  | download (knownRev : Option String) : Action
  | upload (payload : JVal) (parentRev : Option String) : Action
  | replaceSnapshot (data : JVal) : Action
  | writeRecoveryHash (h : String) : Action
deriving DecidableEq

/-- Upload membership test on an action list. -/
def isUpload : Action → Bool
  | .upload _ _ => true
  | _ => false

/-- Snapshot-replacement membership test on an action list. -/
def isReplace : Action → Bool
  | .replaceSnapshot _ => true
  | _ => false

/-- Local snapshot slice owned by useStore: the stored projects, cards
and customColors values. -/
structure LocalData : Type where
  projects : JVal
  cards : JVal
  customColors : JVal
deriving DecidableEq

/-- Engine-owned sync state: the fields of useAppSync together with the
crash-recovery slot sm_last_synced_hash_v3 in localStorage. -/
structure EngineState : Type where
  lastSavedHash : String
  lastServerRevision : Option String
  hasConflict : Bool
  isCloudLoaded : Bool
  recoveryHash : Option String
deriving DecidableEq

/-- Truthiness of a JavaScript string-or-null value. -/
def truthyS : Option String → Bool
  | none => false
  | some s => s != ""

/-- CustomColors prop as useStore exports it: data.customColors or the
empty array. -/
def propsColors (ld : LocalData) : JVal := jsOr ld.customColors (jarr .nil)

/-- Object literal with the three snapshot fields, in source order. -/
def jobj3 (p c k : JVal) : JVal :=
  jobj (.cons "projects" p (.cons "cards" c (.cons "customColors" k .nil)))

/-- Hash of the current snapshot exactly as the engine computes it on
every render: stableStringify on the object literal of the three
props. -/
def currentHash (ld : LocalData) : String :=
  hashStr (jobj3 ld.projects ld.cards (propsColors ld))

/-- Effect of loadDataStore(data): useStore loadData is setData(newData),
after which the exported props read the three fields of the stored
value. -/
def applyLoad (d : JVal) : LocalData :=
  { projects := jsGet d "projects"
    cards := jsGet d "cards"
    customColors := jsGet d "customColors" }

/-- Read-only remote environment for a load or poll step: the revision
getLatestRevision reports (none for failure or a missing file) and the
content downloading a given revision returns (none for a failed
download). -/
structure PollEnv : Type where
  latestRev : Option String
  fileAt : String → Option JVal

/-- Model of useDropbox loadData: with a revision supplied the download
fetches exactly that revision; otherwise the latest revision is resolved
first (aborting when unavailable) and then that exact revision is
fetched, so the returned snapshot and revision always agree. -/
def loadDataM (env : PollEnv) (knownRev : Option String) : Option (JVal × String) :=
  match knownRev with
  | some r => (env.fileAt r).map (fun d => (d, r))
  | none =>
      match env.latestRev with
      | none => none
      | some r => (env.fileAt r).map (fun d => (d, r))

/-- Per-card normalization used by checkForUpdates and the initial load:
spread of the card with projectIds, attachments and linkedCardIds
defaulted to empty arrays. -/
def normCard (c : JVal) : JVal :=
  jobj (objSet "linkedCardIds" (jsOr (jsGet c "linkedCardIds") (jarr .nil))
       (objSet "attachments" (jsOr (jsGet c "attachments") (jarr .nil))
       (objSet "projectIds" (jsOr (jsGet c "projectIds") (jarr .nil))
       (asFields c))))

/-- Map over the elements of an array value. -/
def mapArr (f : JVal → JVal) : JArr → JArr
  | .nil => .nil
  | .cons x xs => .cons (f x) (mapArr f xs)

/-- Normalization of the cards field: (cards or []) mapped through
normCard.  The engine only ever maps over arrays (a truthy non-array
would throw in the source and abort the poll via its try/catch). -/
def normCards (v : JVal) : JVal :=
  match jsOr v (jarr .nil) with
  | jarr xs => jarr (mapArr normCard xs)
  | w => w

/-- Normalization of downloaded data, shared by checkForUpdates and the
initial load: spread of the data with projects, cards and customColors
defaulted (cards per-card normalized). -/
def normalizeCloud (d : JVal) : JVal :=
  jobj (objSet "customColors" (jsOr (jsGet d "customColors") (jarr .nil))
       (objSet "cards" (normCards (jsGet d "cards"))
       (objSet "projects" (jsOr (jsGet d "projects") (jarr .nil))
       (asFields d))))

/-- Inputs of one drift-poll invocation: the force flag of
checkForUpdates, the isDropboxAuthenticated and isSyncing flags and the
milliseconds since the last local mutation. -/
structure PollInput : Type where
  force : Bool
  auth : Bool
  isSyncing : Bool
  timeSince : Int

/-- Drift poll checkForUpdates (useAppSync lines 360 to 473) as a pure
step.  Returns the successor engine state, the successor local snapshot
and the effects performed. -/
def checkForUpdates (inp : PollInput) (st : EngineState) (ld : LocalData)
    (env : PollEnv) : EngineState × LocalData × List Action :=
  if ¬inp.auth ∨ inp.isSyncing then (st, ld, [])
  else if ¬inp.force ∧ inp.timeSince < 2000 then (st, ld, [])
  else
    let latestRev := env.latestRev
    if ¬truthyS latestRev ∨ latestRev = st.lastServerRevision then
      (st, ld, [.getLatestRev])
    else
      if st.lastSavedHash ≠ "" ∧ currentHash ld ≠ st.lastSavedHash then
        ({ st with hasConflict := true }, ld,
         [.getLatestRev, .download latestRev])
      else
        match loadDataM env latestRev with
        | none => (st, ld, [.getLatestRev, .download latestRev])
        | some (data, rev) =>
            if truthy data ∧ truthy (jsGet data "projects") then
              let cloud := normalizeCloud data
              let cloudHash := hashStr (jobj3 (jsGet cloud "projects")
                (jsGet cloud "cards") (jsGet cloud "customColors"))
              if currentHash ld = st.lastSavedHash ∨ st.lastSavedHash = "" then
                ({ st with lastSavedHash := cloudHash,
                           lastServerRevision := some rev,
                           hasConflict := false,
                           recoveryHash := some cloudHash },
                 applyLoad cloud,
                 [.getLatestRev, .download latestRev, .replaceSnapshot cloud,
                  .writeRecoveryHash cloudHash])
              else
                ({ st with hasConflict := true }, ld,
                 [.getLatestRev, .download latestRev])
            else (st, ld, [.getLatestRev, .download latestRev])

/-- Failure modes of an upload, injected by the environment.  With
unavailable the flag records whether the store applied the write before
failing to acknowledge it (the ambiguity the spec singles out). -/
inductive UploadFault : Type where
  | noFault : UploadFault
  | unavailable (applied : Bool) : UploadFault
  | authFail : UploadFault
  | netFail : UploadFault
deriving DecidableEq

/-- State of the remote blob store: the stored document and its current
revision, when the file exists. -/
structure RemoteStore : Type where
  file : Option (JVal × String)
deriving DecidableEq

/-- Rejection kinds of the client result record. -/
inductive ErrType : Type where
  | conflictT : ErrType
  | authT : ErrType
  | serverT : ErrType
  | netT : ErrType
deriving DecidableEq

/-- Result record of saveData: success flag, new revision on success,
conflict flag and error kind. -/
structure SaveResult : Type where
  success : Bool
  rev : Option String
  conflict : Bool
  errorType : Option ErrType
deriving DecidableEq

/-- Model of useDropbox saveData (part_007 lines 84 to 141) composed
with the remote store.  The store itself is a third-party service, so
its write behaviour is Modelled from the spec: a conditional upload is
accepted only when the store's current revision still equals the
supplied parent revision at write time, an unconditional upload always
overwrites, and an accepted write stores the data under a fresh
revision.  The client selects the conditional mode exactly when the
parent revision is truthy, and maps a rejected conditional write to a
conflict result, an unavailable store to a server_error result without
asserting either success or failure of the write (the store may have
applied it), and auth or network failures to their kinds. -/
def saveDataM (stor : RemoteStore) (data : JVal) (parentRev : Option String)
    (newRev : String) (fault : UploadFault) : RemoteStore × SaveResult :=
  let conditional := truthyS parentRev
  let casOk := !conditional ||
    (match stor.file with
     | some (_, r) => some r == parentRev
     | none => false)
  match fault with
  | .noFault =>
      if casOk then
        ({ file := some (data, newRev) },
         { success := true, rev := some newRev, conflict := false, errorType := none })
      else
        (stor, { success := false, rev := none, conflict := true, errorType := some .conflictT })
  | .unavailable applied =>
      (if casOk && applied then { file := some (data, newRev) } else stor,
       { success := false, rev := none, conflict := false, errorType := some .serverT })
  | .authFail =>
      (stor, { success := false, rev := none, conflict := false, errorType := some .authT })
  | .netFail =>
      (stor, { success := false, rev := none, conflict := false, errorType := some .netT })

/-- Environment of one autosave timer fire: the pre-flight revision,
the clock value for the _meta stamp, the remote store and the token a
successful write would get, and the injected fault. -/
structure SaveEnv : Type where
  latestRev : Option String
  now : Int
  store : RemoteStore
  newRev : String
  fault : UploadFault

/-- Payload of saveWithMeta: spread of the data with a _meta object
holding lastSaved (Date.now()) and the app version. -/
def withMeta (d : JVal) (now : Int) : JVal :=
  jobj (objSet "_meta"
    (jobj (.cons "lastSaved" (jnum now) (.cons "appVersion" (jstr "1.0.1") .nil)))
    (asFields d))

/-- Body of the autosave timer (useAppSync lines 312 to 354): abort on
an active conflict; skip when the current hash equals the last saved
hash; pre-flight revision check; conditional upload through saveWithMeta
with lastServerRevision as parent; state updates per result. -/
def autosaveFire (st : EngineState) (ld : LocalData) (env : SaveEnv) :
    EngineState × RemoteStore × List Action :=
  if st.hasConflict then (st, env.store, [])
  else
    let currentData := jobj3 ld.projects ld.cards (propsColors ld)
    if hashStr currentData = st.lastSavedHash then (st, env.store, [])
    else
      let serverRev := env.latestRev
      if truthyS serverRev ∧ truthyS st.lastServerRevision ∧
          serverRev ≠ st.lastServerRevision then
        ({ st with hasConflict := true }, env.store, [.getLatestRev])
      else
        let payload := withMeta currentData env.now
        let out := saveDataM env.store payload st.lastServerRevision env.newRev env.fault
        let acts := [Action.getLatestRev, .upload payload st.lastServerRevision]
        if out.2.conflict then
          ({ st with hasConflict := true }, out.1, acts)
        else if out.2.success then
          let newHash := hashStr currentData
          ({ st with lastSavedHash := newHash,
                     lastServerRevision :=
                       if truthyS out.2.rev then out.2.rev else st.lastServerRevision,
                     recoveryHash := some newHash },
           out.1, acts ++ [.writeRecoveryHash newHash])
        else (st, out.1, acts)

/-- Length-is-zero test of the autosave guard projects.length === 0:
true for the empty array and the empty string; false for non-arrays
(their length member is undefined, and undefined === 0 is false). -/
def lenZero : JVal → Bool
  | jarr .nil => true
  | jstr s => s == ""
  | _ => false

/-- One autosave cycle (useAppSync lines 308 to 357): the effect guards
(authenticated, cloud loaded, non-empty projects) followed by the
debounced timer body. -/
def autosaveCycle (auth : Bool) (st : EngineState) (ld : LocalData)
    (env : SaveEnv) : EngineState × RemoteStore × List Action :=
  if ¬auth ∨ ¬st.isCloudLoaded then (st, env.store, [])
  else if ¬truthy ld.projects ∨ lenZero ld.projects then (st, env.store, [])
  else autosaveFire st ld env

/-- Initial load (useAppSync lines 241 to 305) as a pure step: download
the latest snapshot; when a recovery hash is present and differs from
the current in-memory hash, keep local state and only adopt the remote
revision; otherwise push the normalized download into the store and set
the baseline from the post-store hash (the deferred hash effect of the
source, composed synchronously); a failed download leaves everything
unchanged, including isCloudLoaded. -/
def initialLoad (auth : Bool) (st : EngineState) (ld : LocalData)
    (env : PollEnv) : EngineState × LocalData × List Action :=
  if ¬auth ∨ st.isCloudLoaded then (st, ld, [])
  else
    match loadDataM env none with
    | none => (st, ld, [.download none])
    | some (data, rev) =>
        let storedHash := st.recoveryHash
        let curH := currentHash ld
        if truthyS storedHash ∧ storedHash ≠ some curH then
          ({ st with lastSavedHash := storedHash.getD "",
                     lastServerRevision := some rev,
                     isCloudLoaded := true }, ld, [.download none])
        else if truthy data ∧ truthy (jsGet data "projects") ∧
            truthy (jsGet data "cards") then
          let cloud := normalizeCloud data
          let ld2 := applyLoad cloud
          let h2 := currentHash ld2
          ({ st with lastSavedHash := h2,
                     lastServerRevision := some rev,
                     isCloudLoaded := true,
                     recoveryHash := some h2 },
           ld2, [.download none, .replaceSnapshot cloud, .writeRecoveryHash h2])
        else ({ st with isCloudLoaded := true }, ld, [.download none])

/-- Conflict resolution, accept_cloud strategy (useAppSync lines 477 to
490): resolve the latest revision, download it (or the latest when the
resolve failed), replace the local snapshot with the raw download, reset
both baselines to the downloaded values and clear the conflict. -/
def resolveAcceptCloud (st : EngineState) (ld : LocalData) (env : PollEnv) :
    EngineState × LocalData × List Action :=
  let secureRev := env.latestRev
  let knownRev := if truthyS secureRev then secureRev else none
  match loadDataM env knownRev with
  | none => (st, ld, [.getLatestRev, .download knownRev])
  | some (data, rev) =>
      if truthy data then
        let cloudHash := hashStr (jobj3 (jsGet data "projects")
          (jsGet data "cards") (jsOr (jsGet data "customColors") (jarr .nil)))
        ({ st with lastSavedHash := cloudHash,
                   lastServerRevision := some rev,
                   hasConflict := false,
                   recoveryHash := some cloudHash },
         applyLoad data,
         [.getLatestRev, .download knownRev, .replaceSnapshot data,
          .writeRecoveryHash cloudHash])
      else (st, ld, [.getLatestRev, .download knownRev])

/-- Characters that can directly follow a complete serialized value
inside a larger serialization: a separator or a closing bracket. -/
def isDelim (c : Char) : Bool := c = ',' || c = ']' || c = '}'

/-- Tails whose head (if any) is a delimiter; the shape in which the
unique-readability lemmas consume their continuations. -/
def delimOk : List Char → Prop
  | [] => True
  | c :: _ => isDelim c = true

/-- Characters a serialized number consists of. -/
def isNumCh (c : Char) : Bool := c = '-' || ('0' ≤ c && c ≤ '9')

/-- Decimal digit characters proper. -/
def isDigitCh (c : Char) : Bool := '0' ≤ c && c ≤ '9'

/-- Numeric value of a digit character. -/
def digValC (c : Char) : Nat := c.toNat - 48

/-- Value of a most-significant-first digit string. -/
def digitsVal (l : List Char) : Nat := l.foldl (fun a c => a * 10 + digValC c) 0

/-- Constructor tag of a value, used to discriminate serializations by
their first character. -/
def headTag : JVal → Nat
  | jnull => 0
  | jundef => 0
  | jbool _ => 1
  | jnum _ => 2
  | jstr _ => 3
  | jarr _ => 4
  | jobj _ => 5

/-- Tag of a character as the potential first character of a
serialization. -/
def chTag (c : Char) : Nat :=
  if c = 'n' then 0
  else if c = 't' ∨ c = 'f' then 1
  else if isNumCh c then 2
  else if c = '"' then 3
  else if c = '[' then 4
  else if c = '{' then 5
  else 6

/-- Number of uploads among the performed effects. -/
def countUploads (l : List Action) : Nat := l.countP (fun a => isUpload a)

/-- Hash of a downloaded snapshot exactly as resolveConflict computes
it: stableStringify on the object literal of the three fields read off
the download, customColors defaulted to the empty array. -/
def downloadedHash (d : JVal) : String :=
  hashStr (jobj3 (jsGet d "projects") (jsGet d "cards")
    (jsOr (jsGet d "customColors") (jarr .nil)))

/-! ## Theorems -/

theorem stableStringify_eq_hashStr (v : JVal) (h : v ≠ jundef) :
    stableStringify v = some (hashStr v) := by
  have hc : cleanVal v ≠ jundef := by
    cases v <;> simp_all [cleanVal]
  simp [stableStringify, jsonStringify, hashStr, hc]

example : hashStr (jobj (.cons "b" (jnum 2) (.cons "a" jnull .nil))) = "\x7b\"b\":2\x7d" := by decide

example : hashStr (jarr (.cons jundef .nil)) = "[null]" := by decide

example : stableStringify jundef = none := by decide

/-- Claim C10: for every autosave cycle, when the local projects
collection is empty or absent no upload is attempted, so an empty local
snapshot can never overwrite a non-empty remote document via
autosave. -/
theorem autosave_empty_projects_no_upload (auth : Bool) (st : EngineState)
    (ld : LocalData) (env : SaveEnv)
    (h : ld.projects = jarr .nil ∨ ld.projects = jundef ∨ ld.projects = jnull) :
    countUploads (autosaveCycle auth st ld env).2.2 = 0 := by
  rcases h with h | h | h <;>
    simp [autosaveCycle, truthy, lenZero, h, countUploads]

/-- Witness for C10 at a concrete state with an empty projects array. -/
theorem autosave_empty_projects_no_upload_witness :
    countUploads (autosaveCycle true
      ⟨"", none, false, true, none⟩
      ⟨jarr .nil, jarr .nil, jarr .nil⟩
      ⟨none, 0, ⟨none⟩, "r1", .noFault⟩).2.2 = 0 :=
  autosave_empty_projects_no_upload true ⟨"", none, false, true, none⟩
    ⟨jarr .nil, jarr .nil, jarr .nil⟩ ⟨none, 0, ⟨none⟩, "r1", .noFault⟩
    (Or.inl rfl)

/-- Counterexample to claim C4 as stated: the empty string is a
non-null parentRevision, yet the client maps it to the unconditional
overwrite mode (the source tests truthiness, not nullness), so a write
whose parent revision disagrees with the store still succeeds silently
instead of being rejected as a conflict. -/
theorem saveData_lock_counterexample :
    (some "" ≠ (none : Option String)) ∧
    (RemoteStore.mk (some (jnull, "r1"))).file.map Prod.snd ≠ some "" ∧
    (saveDataM ⟨some (jnull, "r1")⟩ (jbool true) (some "") "r2" .noFault).2.success = true ∧
    (saveDataM ⟨some (jnull, "r1")⟩ (jbool true) (some "") "r2" .noFault).2.conflict = false := by
  decide

/-- Claim C4 (amended: non-null and non-empty parentRevision): a
conditional upload whose parent revision no longer equals the store's
current revision fails, leaves the store unchanged, and in a fault-free
run is reported as a conflict; an upload without a parent revision
unconditionally overwrites. -/
theorem saveData_optimistic_lock (stor : RemoteStore) (data : JVal)
    (newRev : String) (fault : UploadFault) (p : String) (hp : p ≠ "")
    (hstale : stor.file.map Prod.snd ≠ some p) :
    ((saveDataM stor data (some p) newRev fault).2.success = false ∧
     (saveDataM stor data (some p) newRev fault).1 = stor ∧
     (fault = .noFault →
       (saveDataM stor data (some p) newRev fault).2.conflict = true)) ∧
    (saveDataM stor data none newRev .noFault).1.file = some (data, newRev) := by
  constructor
  · match hf : stor.file with
    | none => cases fault <;> simp [saveDataM, truthyS, hp, hf]
    | some (d, r) =>
        have hr : ¬(r = p) := fun hr => hstale (by simp [hf, hr])
        cases fault <;> simp [saveDataM, truthyS, hp, hf, hr]
  · simp [saveDataM, truthyS]

/-- Witness for C4 at a concrete stale conditional write and a concrete
unconditional write. -/
theorem saveData_optimistic_lock_witness :
    ((saveDataM ⟨some (jnull, "r1")⟩ (jbool true) (some "r0") "r2" .noFault).2.success = false ∧
     (saveDataM ⟨some (jnull, "r1")⟩ (jbool true) (some "r0") "r2" .noFault).1 = ⟨some (jnull, "r1")⟩ ∧
     (UploadFault.noFault = .noFault →
       (saveDataM ⟨some (jnull, "r1")⟩ (jbool true) (some "r0") "r2" .noFault).2.conflict = true)) ∧
    (saveDataM ⟨some (jnull, "r1")⟩ (jbool true) none "r2" .noFault).1.file = some (jbool true, "r2") :=
  saveData_optimistic_lock ⟨some (jnull, "r1")⟩ (jbool true) "r2" .noFault "r0"
    (by decide) (by decide)

/-- Claim C9 (code bug): the source comment above the guard says the
short guard window is to be respected even on forced environmental
triggers, and the spec states the same, but the implementation tests
force first, so a forced poll with a mutation 0 milliseconds ago still
proceeds (it performs its metadata fetch), while the same non-forced
poll is skipped. -/
theorem drift_poll_guard_bypassed_on_force :
    (checkForUpdates ⟨true, true, false, 0⟩
      ⟨"h", none, false, true, none⟩ ⟨jarr .nil, jarr .nil, jarr .nil⟩
      ⟨none, fun _ => none⟩).2.2 = [.getLatestRev] ∧
    (checkForUpdates ⟨false, true, false, 0⟩
      ⟨"h", none, false, true, none⟩ ⟨jarr .nil, jarr .nil, jarr .nil⟩
      ⟨none, fun _ => none⟩).2.2 = [] := by
  constructor <;> rfl

/-- Noop shape of the timer body under an active conflict. -/
theorem autosaveFire_of_conflict (st : EngineState) (ld : LocalData)
    (env : SaveEnv) (h : st.hasConflict = true) :
    autosaveFire st ld env = (st, env.store, []) := by
  simp [autosaveFire, h]

/-- Noop shape of the timer body when nothing changed since the last
save. -/
theorem autosaveFire_of_clean (st : EngineState) (ld : LocalData)
    (env : SaveEnv)
    (h : hashStr (jobj3 ld.projects ld.cards (propsColors ld)) = st.lastSavedHash) :
    autosaveFire st ld env = (st, env.store, []) := by
  by_cases hc : st.hasConflict = true
  · simp [autosaveFire, hc]
  · simp [autosaveFire, hc, h]

/-- An autosave cycle performs no upload whenever a conflict is active
or the snapshot hash already matches the saved baseline. -/
theorem autosaveCycle_no_upload (auth : Bool) (st : EngineState)
    (ld : LocalData) (env : SaveEnv)
    (h : st.hasConflict = true ∨
      hashStr (jobj3 ld.projects ld.cards (propsColors ld)) = st.lastSavedHash) :
    countUploads (autosaveCycle auth st ld env).2.2 = 0 := by
  by_cases hg : auth = false ∨ st.isCloudLoaded = false
  · simp [autosaveCycle, hg, countUploads]
  · by_cases hp : truthy ld.projects = false ∨ lenZero ld.projects = true
    · simp [autosaveCycle, hg, hp, countUploads]
    · rcases h with h | h
      · simp [autosaveCycle, hg, hp, autosaveFire_of_conflict st ld env h,
          countUploads]
      · simp [autosaveCycle, hg, hp, autosaveFire_of_clean st ld env h,
          countUploads]

/-- Claim C8: an upload failing with ServerUnavailable is reported as
success = false without the conflict kind, and the engine keeps its
entire sync state: lastSavedHash, lastServerRevision, hasConflict and
the recovery slot retain their prior values, assuming neither success
nor failure of the write. -/
theorem autosave_server_unavailable_atomic (st : EngineState)
    (ld : LocalData) (env : SaveEnv) (applied : Bool)
    (hf : env.fault = .unavailable applied)
    (hnc : st.hasConflict = false)
    (hdirty : hashStr (jobj3 ld.projects ld.cards (propsColors ld)) ≠ st.lastSavedHash)
    (hpre : ¬(truthyS env.latestRev ∧ truthyS st.lastServerRevision ∧
        env.latestRev ≠ st.lastServerRevision)) :
    (autosaveFire st ld env).1 = st ∧
    countUploads (autosaveFire st ld env).2.2 = 1 ∧
    ∀ stor data parent newRev,
      (saveDataM stor data parent newRev (.unavailable applied)).2 =
        { success := false, rev := none, conflict := false,
          errorType := some .serverT } := by
  refine ⟨?_, ?_, fun stor data parent newRev => by simp [saveDataM]⟩ <;>
    simp [autosaveFire, hnc, hdirty, hpre, hf, saveDataM, countUploads,
      isUpload]

/-- Witness for C8 at a concrete dirty state and an unavailable
store. -/
theorem autosave_server_unavailable_atomic_witness :
    (autosaveFire ⟨"h0", none, false, true, none⟩
        ⟨jarr .nil, jarr .nil, jarr .nil⟩
        ⟨none, 0, ⟨none⟩, "r1", .unavailable true⟩).1 =
      ⟨"h0", none, false, true, none⟩ ∧
    countUploads (autosaveFire ⟨"h0", none, false, true, none⟩
        ⟨jarr .nil, jarr .nil, jarr .nil⟩
        ⟨none, 0, ⟨none⟩, "r1", .unavailable true⟩).2.2 = 1 ∧
    ∀ stor data parent newRev,
      (saveDataM stor data parent newRev (.unavailable true)).2 =
        { success := false, rev := none, conflict := false,
          errorType := some .serverT } :=
  autosave_server_unavailable_atomic ⟨"h0", none, false, true, none⟩
    ⟨jarr .nil, jarr .nil, jarr .nil⟩ ⟨none, 0, ⟨none⟩, "r1", .unavailable true⟩
    true rfl rfl (by decide) (by decide)

/-- Counterexample to claim C3 as stated: when lastServerRevision is
still null (no baseline revision), a pre-flight result that differs from
it does not set hasConflict, and the engine proceeds to upload (the
source requires both revisions truthy before comparing). -/
theorem autosave_preflight_counterexample :
    (some "r2" : Option String) ≠ (⟨"h0", none, false, true, none⟩ : EngineState).lastServerRevision ∧
    countUploads (autosaveFire ⟨"h0", none, false, true, none⟩
        ⟨jarr (.cons (jnum 1) .nil), jarr .nil, jarr .nil⟩
        ⟨some "r2", 0, ⟨none⟩, "r3", .noFault⟩).2.2 = 1 ∧
    (autosaveFire ⟨"h0", none, false, true, none⟩
        ⟨jarr (.cons (jnum 1) .nil), jarr .nil, jarr .nil⟩
        ⟨some "r2", 0, ⟨none⟩, "r3", .noFault⟩).1.hasConflict = false := by
  decide

/-- Claim C3 (amended: both the returned revision and
lastServerRevision are present, in the JavaScript sense of truthy, and
differ): the timer fire that reaches the network stage performs the
getLatestRevision pre-flight and, on a revision mismatch, sets
hasConflict and returns without any upload. -/
theorem autosave_preflight_conflict (st : EngineState) (ld : LocalData)
    (env : SaveEnv)
    (hnc : st.hasConflict = false)
    (hdirty : hashStr (jobj3 ld.projects ld.cards (propsColors ld)) ≠ st.lastSavedHash)
    (h1 : truthyS env.latestRev) (h2 : truthyS st.lastServerRevision)
    (hne : env.latestRev ≠ st.lastServerRevision) :
    autosaveFire st ld env = ({ st with hasConflict := true }, env.store, [.getLatestRev]) := by
  simp [autosaveFire, hnc, hdirty, h1, h2, hne]

/-- Witness for C3 at a concrete split-brain state. -/
theorem autosave_preflight_conflict_witness :
    autosaveFire ⟨"h0", some "r1", false, true, none⟩
        ⟨jarr (.cons (jnum 1) .nil), jarr .nil, jarr .nil⟩
        ⟨some "r2", 0, ⟨none⟩, "r3", .noFault⟩ =
      ({ lastSavedHash := "h0", lastServerRevision := some "r1",
         hasConflict := true, isCloudLoaded := true, recoveryHash := none },
       ⟨none⟩, [.getLatestRev]) :=
  autosave_preflight_conflict ⟨"h0", some "r1", false, true, none⟩
    ⟨jarr (.cons (jnum 1) .nil), jarr .nil, jarr .nil⟩
    ⟨some "r2", 0, ⟨none⟩, "r3", .noFault⟩
    rfl (by decide) (by decide) (by decide) (by decide)

/-- Bound on the uploads of a single timer fire: every control path of
the body performs at most one upload. -/
theorem autosaveFire_upload_bound (st : EngineState) (ld : LocalData)
    (env : SaveEnv) :
    countUploads (autosaveFire st ld env).2.2 ≤ 1 := by
  simp only [autosaveFire]
  split_ifs <;> simp [countUploads, isUpload]

/-- Counterexample to claim C7 as stated: when the first upload is lost
to a network failure (success = false, no conflict), the sync state is
unchanged and the second timer fire uploads again, so two cycles with no
intervening mutation perform two network writes. -/
theorem autosave_idempotence_counterexample :
    countUploads (autosaveCycle true ⟨"h0", none, false, true, none⟩
        ⟨jarr (.cons (jnum 1) .nil), jarr .nil, jarr .nil⟩
        ⟨none, 0, ⟨none⟩, "r1", .netFail⟩).2.2 +
      countUploads (autosaveCycle true
        (autosaveCycle true ⟨"h0", none, false, true, none⟩
          ⟨jarr (.cons (jnum 1) .nil), jarr .nil, jarr .nil⟩
          ⟨none, 0, ⟨none⟩, "r1", .netFail⟩).1
        ⟨jarr (.cons (jnum 1) .nil), jarr .nil, jarr .nil⟩
        ⟨none, 0, ⟨none⟩, "r1", .netFail⟩).2.2 = 2 := by
  decide

/-- Claim C7 (amended: a write lost to a server, auth or network
failure may be retried; with a fault-free first cycle the bound holds):
a timer fire whose current hash equals lastSavedHash is a no-op with no
upload and no state change, and two autosave cycles with no intervening
mutation whose first runs fault-free perform at most one upload. -/
theorem autosave_idempotent (auth : Bool) (st : EngineState)
    (ld : LocalData) (env1 env2 : SaveEnv)
    (hss : env1.fault = .noFault) :
    (hashStr (jobj3 ld.projects ld.cards (propsColors ld)) = st.lastSavedHash →
      autosaveFire st ld env1 = (st, env1.store, [])) ∧
    countUploads (autosaveCycle auth st ld env1).2.2 +
      countUploads (autosaveCycle auth (autosaveCycle auth st ld env1).1 ld env2).2.2 ≤ 1 := by
  refine ⟨fun h => autosaveFire_of_clean st ld env1 h, ?_⟩
  by_cases hg : auth = false ∨ st.isCloudLoaded = false
  · have h1 : autosaveCycle auth st ld env1 = (st, env1.store, []) := by
      simp [autosaveCycle, hg]
    have h2 : autosaveCycle auth st ld env2 = (st, env2.store, []) := by
      simp [autosaveCycle, hg]
    simp [h1, h2, countUploads]
  · by_cases hp : truthy ld.projects = false ∨ lenZero ld.projects = true
    · have h1 : autosaveCycle auth st ld env1 = (st, env1.store, []) := by
        simp [autosaveCycle, hg, hp]
      have h2 : autosaveCycle auth st ld env2 = (st, env2.store, []) := by
        simp [autosaveCycle, hg, hp]
      simp [h1, h2, countUploads]
    · have hcyc : ∀ (st1 : EngineState) (env0 : SaveEnv),
          st1.isCloudLoaded = st.isCloudLoaded →
          autosaveCycle auth st1 ld env0 = autosaveFire st1 ld env0 := by
        intro st1 env0 hi
        have hg1 : ¬(auth = false ∨ st1.isCloudLoaded = false) := by
          rw [hi]; exact hg
        simp [autosaveCycle, hg1, hp]
      rw [hcyc st env1 rfl]
      have hb : countUploads (autosaveFire st ld env1).2.2 ≤ 1 :=
        autosaveFire_upload_bound st ld env1
      have key : (autosaveFire st ld env1).1.hasConflict = true ∨
          hashStr (jobj3 ld.projects ld.cards (propsColors ld)) =
            (autosaveFire st ld env1).1.lastSavedHash := by
        by_cases hc : st.hasConflict = true
        · rw [autosaveFire_of_conflict st ld env1 hc]
          exact Or.inl hc
        · by_cases hh : hashStr (jobj3 ld.projects ld.cards (propsColors ld)) = st.lastSavedHash
          · rw [autosaveFire_of_clean st ld env1 hh]
            exact Or.inr hh
          · by_cases hpre : truthyS env1.latestRev = true ∧
                truthyS st.lastServerRevision = true ∧
                env1.latestRev ≠ st.lastServerRevision
            · have h1 : (autosaveFire st ld env1).1 = { st with hasConflict := true } := by
                simp [autosaveFire, hc, hh, hpre]
              rw [h1]
              exact Or.inl rfl
            · by_cases hcas : (!truthyS st.lastServerRevision ||
                  (match env1.store.file with
                   | some (_, r) => some r == st.lastServerRevision
                   | none => false)) = true
              · have h1 : (autosaveFire st ld env1).1 =
                    { st with
                        lastSavedHash := hashStr (jobj3 ld.projects ld.cards (propsColors ld)),
                        lastServerRevision := if truthyS (some env1.newRev) then some env1.newRev
                          else st.lastServerRevision,
                        recoveryHash := some (hashStr (jobj3 ld.projects ld.cards (propsColors ld))) } := by
                  simp [autosaveFire, hc, hh, hpre, hss, saveDataM, hcas]
                rw [h1]
                exact Or.inr rfl
              · have h1 : (autosaveFire st ld env1).1 = { st with hasConflict := true } := by
                  simp [autosaveFire, hc, hh, hpre, hss, saveDataM, hcas]
                rw [h1]
                exact Or.inl rfl
      have h2 := autosaveCycle_no_upload auth (autosaveFire st ld env1).1 ld env2 key
      omega

/-- Witness for C7 at a concrete clean state: the fire is a no-op and
two consecutive cycles perform no upload at all. -/
theorem autosave_idempotent_witness :
    (hashStr (jobj3 (jarr .nil) (jarr .nil) (propsColors ⟨jarr .nil, jarr .nil, jarr .nil⟩)) =
        (⟨"[]", none, false, true, none⟩ : EngineState).lastSavedHash →
      autosaveFire ⟨"[]", none, false, true, none⟩ ⟨jarr .nil, jarr .nil, jarr .nil⟩
          ⟨none, 0, ⟨none⟩, "r1", .noFault⟩ =
        (⟨"[]", none, false, true, none⟩, ⟨none⟩, [])) ∧
    countUploads (autosaveCycle true ⟨"[]", none, false, true, none⟩
        ⟨jarr .nil, jarr .nil, jarr .nil⟩ ⟨none, 0, ⟨none⟩, "r1", .noFault⟩).2.2 +
      countUploads (autosaveCycle true
        (autosaveCycle true ⟨"[]", none, false, true, none⟩
          ⟨jarr .nil, jarr .nil, jarr .nil⟩ ⟨none, 0, ⟨none⟩, "r1", .noFault⟩).1
        ⟨jarr .nil, jarr .nil, jarr .nil⟩ ⟨none, 0, ⟨none⟩, "r1", .noFault⟩).2.2 ≤ 1 :=
  autosave_idempotent true ⟨"[]", none, false, true, none⟩
    ⟨jarr .nil, jarr .nil, jarr .nil⟩ ⟨none, 0, ⟨none⟩, "r1", .noFault⟩
    ⟨none, 0, ⟨none⟩, "r1", .noFault⟩ rfl

/-- Claim C6: on initial load, when the stored crash-recovery hash is
present (truthy) and differs from the hash of the current in-memory
snapshot, the engine does not replace the local snapshot, adopts the
downloaded remote revision into lastServerRevision, keeps lastSavedHash
at the recovery hash, and is therefore dirty. -/
theorem initial_load_preserves_dirty_local (st : EngineState)
    (ld : LocalData) (env : PollEnv) (data : JVal) (rev h : String)
    (hload : loadDataM env none = some (data, rev))
    (hcl : st.isCloudLoaded = false)
    (hrec : st.recoveryHash = some h) (hne : h ≠ "")
    (hdiff : h ≠ currentHash ld) :
    initialLoad true st ld env =
      ({ st with lastSavedHash := h, lastServerRevision := some rev,
                 isCloudLoaded := true }, ld, [.download none]) ∧
    currentHash ld ≠ h := by
  refine ⟨?_, fun hh => hdiff hh.symm⟩
  have hsome : st.recoveryHash ≠ some (currentHash ld) := by
    rw [hrec]
    simp [hdiff]
  simp [initialLoad, hcl, hload, hrec, truthyS, hne, hsome]
  intro hcon
  exact absurd hcon hdiff

/-- Witness for C6 at a concrete recovery hash that differs from the
in-memory snapshot hash. -/
theorem initial_load_preserves_dirty_local_witness :
    initialLoad true ⟨"", none, false, false, some "HH"⟩
        ⟨jarr .nil, jarr .nil, jarr .nil⟩
        ⟨some "r9", fun _ => some (jobj .nil)⟩ =
      ({ lastSavedHash := "HH", lastServerRevision := some "r9",
         hasConflict := false, isCloudLoaded := true, recoveryHash := some "HH" },
       ⟨jarr .nil, jarr .nil, jarr .nil⟩, [.download none]) ∧
    currentHash ⟨jarr .nil, jarr .nil, jarr .nil⟩ ≠ "HH" :=
  initial_load_preserves_dirty_local ⟨"", none, false, false, some "HH"⟩
    ⟨jarr .nil, jarr .nil, jarr .nil⟩ ⟨some "r9", fun _ => some (jobj .nil)⟩
    (jobj .nil) "r9" "HH" rfl rfl rfl (by decide) (by decide)

/-- Claim C5: a completed accept_cloud resolution with a successful
download replaces the local snapshot by the downloaded one, after which
the local hash equals the downloaded hash, lastSavedHash and
lastServerRevision hold the downloaded values, and hasConflict is
cleared. -/
theorem accept_cloud_converges (st : EngineState) (ld : LocalData)
    (env : PollEnv) (data : JVal) (rev : String)
    (hload : loadDataM env
      (if truthyS env.latestRev then env.latestRev else none) = some (data, rev))
    (hdata : truthy data) :
    resolveAcceptCloud st ld env =
      ({ st with lastSavedHash := downloadedHash data,
                 lastServerRevision := some rev,
                 hasConflict := false,
                 recoveryHash := some (downloadedHash data) },
       applyLoad data,
       [.getLatestRev,
        .download (if truthyS env.latestRev then env.latestRev else none),
        .replaceSnapshot data, .writeRecoveryHash (downloadedHash data)]) ∧
    currentHash (applyLoad data) = downloadedHash data := by
  refine ⟨?_, rfl⟩
  simp [resolveAcceptCloud, hload, hdata, downloadedHash]

/-- Witness for C5 at a concrete downloaded snapshot. -/
theorem accept_cloud_converges_witness :
    resolveAcceptCloud ⟨"old", some "r0", true, true, none⟩
        ⟨jnull, jnull, jnull⟩
        ⟨some "r1", fun _ => some (jobj (.cons "projects" (jarr .nil) .nil))⟩ =
      ({ lastSavedHash := downloadedHash (jobj (.cons "projects" (jarr .nil) .nil)),
         lastServerRevision := some "r1",
         hasConflict := false, isCloudLoaded := true,
         recoveryHash := some (downloadedHash (jobj (.cons "projects" (jarr .nil) .nil))) },
       applyLoad (jobj (.cons "projects" (jarr .nil) .nil)),
       [.getLatestRev, .download (some "r1"),
        .replaceSnapshot (jobj (.cons "projects" (jarr .nil) .nil)),
        .writeRecoveryHash (downloadedHash (jobj (.cons "projects" (jarr .nil) .nil)))]) ∧
    currentHash (applyLoad (jobj (.cons "projects" (jarr .nil) .nil))) =
      downloadedHash (jobj (.cons "projects" (jarr .nil) .nil)) := by
  have := accept_cloud_converges ⟨"old", some "r0", true, true, none⟩
    ⟨jnull, jnull, jnull⟩
    ⟨some "r1", fun _ => some (jobj (.cons "projects" (jarr .nil) .nil))⟩
    (jobj (.cons "projects" (jarr .nil) .nil)) "r1" rfl (by decide)
  simpa using this

/-- Counterexample to claim C1 as stated: with an empty lastSavedHash
(the state before any baseline is established) the engine observes a
newer remote revision while the current hash differs from lastSavedHash,
and still replaces the local snapshot without setting hasConflict: the
source deliberately treats the empty hash as a fresh-start license to
overwrite. -/
theorem drift_poll_counterexample :
    truthyS (some "r1") = true ∧
    (some "r1" : Option String) ≠ (⟨"", none, false, true, none⟩ : EngineState).lastServerRevision ∧
    currentHash ⟨jarr .nil, jarr .nil, jarr .nil⟩ ≠
      (⟨"", none, false, true, none⟩ : EngineState).lastSavedHash ∧
    (checkForUpdates ⟨false, true, false, 5000⟩ ⟨"", none, false, true, none⟩
        ⟨jarr .nil, jarr .nil, jarr .nil⟩
        ⟨some "r1", fun _ => some (jobj (.cons "projects" (jarr .nil) .nil))⟩).1.hasConflict = false ∧
    (checkForUpdates ⟨false, true, false, 5000⟩ ⟨"", none, false, true, none⟩
        ⟨jarr .nil, jarr .nil, jarr .nil⟩
        ⟨some "r1", fun _ => some (jobj (.cons "projects" (jarr .nil) .nil))⟩).2.2.countP
      (fun a => isReplace a) = 1 := by
  decide

/-- Claim C1 (amended: a baseline exists, lastSavedHash nonempty): on
any drift poll that reaches the revision check and observes a newer
remote revision while the local state is dirty, the engine never calls
replaceSnapshot; it optionally downloads for diagnostics, sets
hasConflict and stops, leaving the local snapshot untouched. -/
theorem drift_poll_dirty_no_overwrite (inp : PollInput) (st : EngineState)
    (ld : LocalData) (env : PollEnv)
    (hauth : inp.auth = true) (hsync : inp.isSyncing = false)
    (hg : inp.force = true ∨ 2000 ≤ inp.timeSince)
    (hrev : truthyS env.latestRev = true)
    (hne : env.latestRev ≠ st.lastServerRevision)
    (hbase : st.lastSavedHash ≠ "")
    (hdirty : currentHash ld ≠ st.lastSavedHash) :
    checkForUpdates inp st ld env =
      ({ st with hasConflict := true }, ld,
       [.getLatestRev, .download env.latestRev]) := by
  have hguard : ¬(inp.force = false ∧ inp.timeSince < 2000) := by
    rcases hg with hg | hg
    · simp [hg]
    · intro hcon
      omega
  simp [checkForUpdates, hauth, hsync, hguard, hrev, hne, hbase, hdirty]

/-- Witness for C1 at a concrete dirty state with an established
baseline. -/
theorem drift_poll_dirty_no_overwrite_witness :
    checkForUpdates ⟨false, true, false, 5000⟩ ⟨"h0", some "r0", false, true, none⟩
        ⟨jarr .nil, jarr .nil, jarr .nil⟩ ⟨some "r1", fun _ => none⟩ =
      ({ lastSavedHash := "h0", lastServerRevision := some "r0",
         hasConflict := true, isCloudLoaded := true, recoveryHash := none },
       ⟨jarr .nil, jarr .nil, jarr .nil⟩,
       [.getLatestRev, .download (some "r1")]) :=
  drift_poll_dirty_no_overwrite ⟨false, true, false, 5000⟩
    ⟨"h0", some "r0", false, true, none⟩ ⟨jarr .nil, jarr .nil, jarr .nil⟩
    ⟨some "r1", fun _ => none⟩ rfl rfl (Or.inr (by decide)) rfl
    (by decide) (by decide) (by decide)

mutual

/-- The normal form described by the spec coincides with the cleaner the
source serializer applies before stringification. -/
theorem specNormalize_eq_clean : ∀ v : JVal, specNormalize v = cleanVal v
  | .jnull => rfl
  | .jundef => rfl
  | .jbool _ => rfl
  | .jnum _ => rfl
  | .jstr _ => rfl
  | .jarr xs => by rw [specNormalize, cleanVal, specNormArr_eq_cleanArr xs]
  | .jobj fs => by rw [specNormalize, cleanVal, specNormFields_eq_cleanFields fs]

/-- Array part of specNormalize_eq_clean. -/
theorem specNormArr_eq_cleanArr : ∀ xs : JArr, specNormArr xs = cleanArr xs
  | .nil => rfl
  | .cons x xs => by
      rw [specNormArr, cleanArr, specNormalize_eq_clean x, specNormArr_eq_cleanArr xs]

/-- Field part of specNormalize_eq_clean. -/
theorem specNormFields_eq_cleanFields : ∀ fs : JObj, specNormFields fs = cleanFields fs
  | .nil => rfl
  | .cons k v fs => by
      rw [specNormFields, cleanFields, specNormFields_eq_cleanFields fs,
        specNormalize_eq_clean v]

end

/-- Cleaning preserves the top constructor; in particular only undefined
cleans to undefined. -/
theorem cleanVal_eq_jundef_iff (v : JVal) : cleanVal v = jundef ↔ v = jundef := by
  cases v <;> simp [cleanVal]

/-- The serializer returns no string exactly on undefined. -/
theorem stableStringify_eq_none_iff (v : JVal) :
    stableStringify v = none ↔ v = jundef := by
  rw [stableStringify, jsonStringify]
  split_ifs with h
  · simp [(cleanVal_eq_jundef_iff v).mp h]
  · simp only [reduceCtorEq, false_iff]
    exact fun hc => h ((cleanVal_eq_jundef_iff v).mpr hc)

/-- Freedom from undefined passes through sorted insertion. -/
theorem ufObj_objInsert : ∀ (k : String) (v : JVal) (fs : JObj),
    ufObj (objInsert k v fs) = (ufVal v && ufObj fs)
  | k, v, .nil => by simp [objInsert, ufObj]
  | k, v, .cons k1 v1 rest => by
      by_cases h : k ≤ k1
      · simp [objInsert, h, ufObj]
      · simp only [objInsert, if_neg h, ufObj, ufObj_objInsert k v rest]
        rw [Bool.and_left_comm]

mutual

/-- A value with no undefined array elements cleans to a value with no
undefined anywhere, unless it is undefined itself. -/
theorem ufVal_cleanVal : ∀ v : JVal, nuaVal v = true → v ≠ jundef →
    ufVal (cleanVal v) = true
  | .jnull, _, _ => rfl
  | .jbool _, _, _ => rfl
  | .jnum _, _, _ => rfl
  | .jstr _, _, _ => rfl
  | .jarr xs, h, _ => by
      rw [cleanVal]
      exact ufArr_cleanArr xs (by simpa [nuaVal] using h)
  | .jobj fs, h, _ => by
      rw [cleanVal]
      exact ufObj_cleanFields fs (by simpa [nuaVal] using h)

/-- Array part of ufVal_cleanVal: no element may be undefined. -/
theorem ufArr_cleanArr : ∀ xs : JArr, nuaArr xs = true → ufArr (cleanArr xs) = true
  | .nil, _ => rfl
  | .cons x xs, h => by
      rw [nuaArr, Bool.and_eq_true, Bool.and_eq_true] at h
      rw [cleanArr, ufArr, Bool.and_eq_true]
      refine ⟨ufVal_cleanVal x h.1.2 ?_, ufArr_cleanArr xs h.2⟩
      intro hx
      rw [hx] at h
      simpa using h.1.1

/-- Field part of ufVal_cleanVal: undefined values are dropped, kept
values are recursively clean. -/
theorem ufObj_cleanFields : ∀ fs : JObj, nuaObj fs = true →
    ufObj (cleanFields fs) = true
  | .nil, _ => rfl
  | .cons k v fs, h => by
      rw [nuaObj, Bool.and_eq_true] at h
      rw [cleanFields]
      split_ifs with hv
      · exact ufObj_cleanFields fs h.2
      · rw [ufObj_objInsert, Bool.and_eq_true]
        push_neg at hv
        exact ⟨ufVal_cleanVal v h.1 hv.2, ufObj_cleanFields fs h.2⟩

end

/-- Fuel irrelevance of the decimal printer: any sufficient fuel prints
the same digits. -/
theorem natCharsF_fuel : ∀ (f1 f2 n : Nat), n < f1 → n < f2 →
    natCharsF f1 n = natCharsF f2 n
  | 0, _, n, h1, _ => absurd h1 (Nat.not_lt_zero n)
  | _ + 1, 0, n, _, h2 => absurd h2 (Nat.not_lt_zero n)
  | f + 1, g + 1, n, h1, h2 => by
      by_cases h : n < 10
      · simp [natCharsF, h]
      · have hdiv : n / 10 < n := Nat.div_lt_self (by omega) (by omega)
        simp only [natCharsF, if_neg h]
        rw [natCharsF_fuel f g (n / 10) (by omega) (by omega)]

/-- Digit characters print as digits. -/
theorem isDigitCh_digitChar {d : Nat} (h : d < 10) :
    isDigitCh (digitChar d) = true := by
  interval_cases d <;> decide

/-- Digit characters evaluate back to their digit. -/
theorem digValC_digitChar {d : Nat} (h : d < 10) : digValC (digitChar d) = d := by
  interval_cases d <;> decide

/-- Every character the decimal printer emits is a digit. -/
theorem natCharsF_digits : ∀ (f n : Nat), n < f → ∀ c ∈ natCharsF f n,
    isDigitCh c = true
  | 0, n, h => absurd h (Nat.not_lt_zero n)
  | f + 1, n, h => by
      by_cases h10 : n < 10
      · simpa [natCharsF, h10] using isDigitCh_digitChar h10
      · have hdiv : n / 10 < n := Nat.div_lt_self (by omega) (by omega)
        simp only [natCharsF, if_neg h10]
        intro c hc
        rcases List.mem_append.mp hc with hc | hc
        · exact natCharsF_digits f (n / 10) (by omega) c hc
        · rw [List.mem_singleton] at hc
          subst hc
          exact isDigitCh_digitChar (Nat.mod_lt _ (by omega))

/-- The decimal printer never emits the empty string. -/
theorem natCharsF_ne_nil : ∀ (f n : Nat), n < f → natCharsF f n ≠ []
  | 0, n, h => absurd h (Nat.not_lt_zero n)
  | f + 1, n, _ => by
      by_cases h10 : n < 10
      · simp [natCharsF, h10]
      · simp only [natCharsF, if_neg h10]
        simp

/-- Round trip of the decimal printer through the digit evaluator. -/
theorem digitsVal_natCharsF : ∀ (f n : Nat), n < f →
    digitsVal (natCharsF f n) = n
  | 0, n, h => absurd h (Nat.not_lt_zero n)
  | f + 1, n, h => by
      by_cases h10 : n < 10
      · simp [natCharsF, h10, digitsVal, digValC_digitChar h10]
      · have hdiv : n / 10 < n := Nat.div_lt_self (by omega) (by omega)
        simp only [natCharsF, if_neg h10]
        rw [digitsVal, List.foldl_append]
        have ih : digitsVal (natCharsF f (n / 10)) = n / 10 :=
          digitsVal_natCharsF f (n / 10) (by omega)
        rw [digitsVal] at ih
        rw [ih]
        simp [digValC_digitChar (Nat.mod_lt n (by omega) : n % 10 < 10)]
        omega

/-- Digit property restated on natChars. -/
theorem natChars_digits (n : Nat) : ∀ c ∈ natChars n, isDigitCh c = true :=
  natCharsF_digits (n + 1) n (by omega)

/-- Nonemptiness restated on natChars. -/
theorem natChars_ne_nil (n : Nat) : natChars n ≠ [] :=
  natCharsF_ne_nil (n + 1) n (by omega)

/-- Injectivity of the decimal printer. -/
theorem natChars_inj {n m : Nat} (h : natChars n = natChars m) : n = m := by
  have h1 : digitsVal (natChars n) = n := digitsVal_natCharsF (n + 1) n (by omega)
  have h2 : digitsVal (natChars m) = m := digitsVal_natCharsF (m + 1) m (by omega)
  rw [← h1, ← h2, h]

/-- Every character of a printed integer is a number character. -/
theorem intChars_numCh (n : Int) : ∀ c ∈ intChars n, isNumCh c = true := by
  have hd : ∀ c ∈ natChars n.natAbs, isNumCh c = true := by
    intro c hc
    have hdg := natChars_digits n.natAbs c hc
    rw [isDigitCh] at hdg
    rw [isNumCh, hdg, Bool.or_true]
  rw [intChars]
  split_ifs with h
  · intro c hc
    rcases List.mem_cons.mp hc with hc | hc
    · subst hc; decide
    · exact hd c hc
  · exact hd

/-- Printed integers are never empty. -/
theorem intChars_ne_nil (n : Int) : intChars n ≠ [] := by
  rw [intChars]
  split_ifs with h
  · simp
  · exact natChars_ne_nil n.natAbs

/-- Injectivity of the integer printer. -/
theorem intChars_inj {n m : Int} (h : intChars n = intChars m) : n = m := by
  rw [intChars, intChars] at h
  split_ifs at h with h1 h2 h2
  · have ht : natChars n.natAbs = natChars m.natAbs := by
      injection h
    have := natChars_inj ht
    omega
  · obtain ⟨c, cs, hc⟩ := List.exists_cons_of_ne_nil (natChars_ne_nil m.natAbs)
    rw [hc] at h
    injection h with hh _
    have hdg := natChars_digits m.natAbs c (by rw [hc]; simp)
    rw [← hh] at hdg
    exact absurd hdg (by decide)
  · obtain ⟨c, cs, hc⟩ := List.exists_cons_of_ne_nil (natChars_ne_nil n.natAbs)
    rw [hc] at h
    injection h with hh _
    have hdg := natChars_digits n.natAbs c (by rw [hc]; simp)
    rw [hh] at hdg
    exact absurd hdg (by decide)
  · have := natChars_inj h
    omega

/-- Maximal-munch splitting: a token of P-characters followed by a
non-P character (or the end) is cut unambiguously from a character
stream. -/
theorem token_split (P : Char → Bool) : ∀ (l1 l2 t1 t2 : List Char),
    (∀ c ∈ l1, P c = true) → (∀ c ∈ l2, P c = true) →
    (∀ c, t1.head? = some c → P c = false) →
    (∀ c, t2.head? = some c → P c = false) →
    l1 ++ t1 = l2 ++ t2 → l1 = l2 ∧ t1 = t2
  | [], [], t1, t2, _, _, _, _, h => ⟨rfl, by simpa using h⟩
  | [], c :: l2, t1, t2, _, hl2, ht1, _, h => by
      rw [List.nil_append, List.cons_append] at h
      have hc : P c = true := hl2 c (List.mem_cons_self c l2)
      have hh : t1.head? = some c := by rw [h]; rfl
      have := ht1 c hh
      rw [hc] at this
      exact absurd this (by decide)
  | c :: l1, [], t1, t2, hl1, _, _, ht2, h => by
      rw [List.nil_append, List.cons_append] at h
      have hc : P c = true := hl1 c (List.mem_cons_self c l1)
      have hh : t2.head? = some c := by rw [← h]; rfl
      have := ht2 c hh
      rw [hc] at this
      exact absurd this (by decide)
  | c :: l1, d :: l2, t1, t2, hl1, hl2, ht1, ht2, h => by
      rw [List.cons_append, List.cons_append] at h
      injection h with hcd htl
      subst hcd
      obtain ⟨hl, ht⟩ := token_split P l1 l2 t1 t2
        (fun x hx => hl1 x (List.mem_cons_of_mem c hx))
        (fun x hx => hl2 x (List.mem_cons_of_mem c hx)) ht1 ht2 htl
      exact ⟨by rw [hl], ht⟩

/-- Escapes are never empty. -/
theorem escChar_ne_nil (c : Char) : escChar c ≠ [] := by
  rw [escChar]
  split_ifs <;> simp

/-- An escape never starts with an unescaped quote. -/
theorem escChar_head_ne_quote (c : Char) (e : Char) (es : List Char)
    (h : escChar c = e :: es) : e ≠ '"' := by
  rw [escChar] at h
  split_ifs at h with h1 h2 h3 h4 h5 h6 h7 h8 <;>
      (injection h with he _; subst he) <;> try decide
  intro hq
  exact h1 (by rw [hq])

/-- Hexadecimal digits decode back to their value. -/
theorem hexVal_hexDig {a : Nat} (h : a < 16) : hexVal (hexDig a) = some a := by
  have hball : ∀ x ∈ List.range 16, hexVal (hexDig x) = some x := by decide
  exact hball a (List.mem_range.mpr h)

/-- Round trip of the escape through its decoder: the decoder recovers
the escaped character and the untouched remainder. -/
theorem escDecode_escChar (c : Char) (r : List Char) :
    escDecode (escChar c ++ r) = some (c, r) := by
  rw [escChar]
  split_ifs with h1 h2 h3 h4 h5 h6 h7 h8
  · subst h1; rfl
  · subst h2; rfl
  · subst h3; rfl
  · subst h4; rfl
  · subst h5; rfl
  · subst h6; rfl
  · subst h7; rfl
  · show escDecode ('\\' :: 'u' :: '0' :: '0' :: hexDig (c.toNat / 16) ::
        hexDig (c.toNat % 16) :: r) = some (c, r)
    rw [escDecode]
    simp only [if_pos rfl]
    rw [hexVal_hexDig (by omega : c.toNat / 16 < 16),
      hexVal_hexDig (Nat.mod_lt _ (by omega) : c.toNat % 16 < 16)]
    simp only []
    rw [show c.toNat / 16 * 16 + c.toNat % 16 = c.toNat by omega]
    simp [Char.ofNat_toNat]
  · rw [List.cons_append, escDecode.eq_def]
    simp [h2]

/-- Escapes are prefix-unambiguous: equal streams starting with two
escapes determine the escaped characters and the remainders. -/
theorem escChar_append_inj (c d : Char) (r1 r2 : List Char)
    (h : escChar c ++ r1 = escChar d ++ r2) : c = d ∧ r1 = r2 := by
  have h1 := escDecode_escChar c r1
  rw [h, escDecode_escChar d r2] at h1
  injection h1 with h1
  injection h1 with hc hr
  exact ⟨hc.symm, hr.symm⟩

/-- Quote-terminated escaped bodies are uniquely decodable. -/
theorem escChars_split : ∀ (a b r1 r2 : List Char),
    escChars a ++ '"' :: r1 = escChars b ++ '"' :: r2 → a = b ∧ r1 = r2
  | [], [], r1, r2, h => by
      simp only [escChars, List.nil_append] at h
      injection h with _ h
      exact ⟨rfl, h⟩
  | [], c :: b, r1, r2, h => by
      simp only [escChars, List.nil_append, List.append_assoc] at h
      obtain ⟨e, es, he⟩ := List.exists_cons_of_ne_nil (escChar_ne_nil c)
      rw [he, List.cons_append] at h
      injection h with h1 _
      exact absurd h1.symm (escChar_head_ne_quote c e es he)
  | c :: a, [], r1, r2, h => by
      simp only [escChars, List.nil_append, List.append_assoc] at h
      obtain ⟨e, es, he⟩ := List.exists_cons_of_ne_nil (escChar_ne_nil c)
      rw [he, List.cons_append] at h
      injection h with h1 _
      exact absurd h1 (escChar_head_ne_quote c e es he)
  | c :: a, d :: b, r1, r2, h => by
      simp only [escChars, List.append_assoc] at h
      obtain ⟨hcd, ht⟩ := escChar_append_inj c d _ _ h
      subst hcd
      obtain ⟨hab, hr⟩ := escChars_split a b r1 r2 ht
      exact ⟨by rw [hab], hr⟩

/-- String literals are self-delimiting: equal streams starting with two
literals determine the strings and the remainders. -/
theorem strLit_split (s1 s2 : String) (r1 r2 : List Char)
    (h : strLit s1 ++ r1 = strLit s2 ++ r2) : s1 = s2 ∧ r1 = r2 := by
  rw [strLit, strLit, List.cons_append, List.cons_append,
    List.append_assoc, List.append_assoc] at h
  injection h with _ h
  rw [List.singleton_append, List.singleton_append] at h
  obtain ⟨hdata, hr⟩ := escChars_split s1.data s2.data r1 r2 h
  exact ⟨congrArg String.mk hdata, hr⟩

/-- Constructor tags stay below 6. -/
theorem headTag_le (v : JVal) : headTag v ≤ 5 := by
  cases v <;> simp [headTag]

/-- Undef-free values are not undefined. -/
theorem ufVal_ne_undef {v : JVal} (h : ufVal v = true) : v ≠ jundef := by
  intro hv
  subst hv
  simp [ufVal] at h

/-- Delimiters are not number characters. -/
theorem isDelim_not_num {c : Char} (h : isDelim c = true) : isNumCh c = false := by
  rw [isDelim] at h
  simp only [Bool.or_eq_true, decide_eq_true_eq] at h
  rcases h with (h | h) | h <;> subst h <;> decide

/-- Delimiter-headed tails never start with a number character. -/
theorem delim_head_not_num {t : List Char} (hd : delimOk t) :
    ∀ c, t.head? = some c → isNumCh c = false := by
  cases t with
  | nil => intro c hc; simp at hc
  | cons c0 cs =>
      intro c hc
      rw [List.head?_cons, Option.some.injEq] at hc
      subst hc
      exact isDelim_not_num hd

/-- Every serialized value starts with a character whose tag matches the
constructor tag of the value. -/
theorem serVal_head : ∀ v : JVal, ∃ c cs, serVal v = c :: cs ∧ chTag c = headTag v
  | jnull => ⟨'n', ['u', 'l', 'l'], rfl, by decide⟩
  | jundef => ⟨'n', ['u', 'l', 'l'], rfl, by decide⟩
  | jbool false => ⟨'f', ['a', 'l', 's', 'e'], rfl, by decide⟩
  | jbool true => ⟨'t', ['r', 'u', 'e'], rfl, by decide⟩
  | jnum n => by
      obtain ⟨c, cs, hc⟩ := List.exists_cons_of_ne_nil (intChars_ne_nil n)
      refine ⟨c, cs, by rw [serVal, hc], ?_⟩
      have hnum := intChars_numCh n c (by rw [hc]; simp)
      have hn : ¬(c = 'n') := by
        intro h; rw [h] at hnum; exact absurd hnum (by decide)
      have htf : ¬(c = 't' ∨ c = 'f') := by
        rintro (h | h) <;> rw [h] at hnum <;> exact absurd hnum (by decide)
      rw [chTag, if_neg hn, if_neg htf, if_pos hnum]
      rfl
  | jstr s => ⟨'"', escChars s.data ++ ['"'], by rw [serVal, strLit], rfl⟩
  | jarr xs => ⟨'[', serArrHead xs, rfl, rfl⟩
  | jobj fs => ⟨'{', serObjHead fs, rfl, rfl⟩

/-- Equal streams force equal constructor tags. -/
theorem serVal_head_eq {u v : JVal} {t1 t2 : List Char}
    (heq : serVal u ++ t1 = serVal v ++ t2) : headTag u = headTag v := by
  obtain ⟨c, cs, hc, hcT⟩ := serVal_head u
  obtain ⟨d, ds, hd, hdT⟩ := serVal_head v
  rw [hc, hd, List.cons_append, List.cons_append] at heq
  injection heq with h1 _
  rw [← hcT, ← hdT, h1]

/-- Array continuations start with a delimiter. -/
theorem serArrTail_head : ∀ xs : JArr, ∃ c cs, serArrTail xs = c :: cs ∧ isDelim c = true
  | .nil => ⟨']', [], rfl, by decide⟩
  | .cons x xs => ⟨',', serVal x ++ serArrTail xs, rfl, by decide⟩

/-- Object continuations start with a delimiter. -/
theorem serObjTail_head : ∀ fs : JObj, ∃ c cs, serObjTail fs = c :: cs ∧ isDelim c = true
  | .nil => ⟨'}', [], rfl, by decide⟩
  | .cons k v fs => by
      rw [serObjTail]
      split_ifs
      · exact serObjTail_head fs
      · exact ⟨',', strLit k ++ (':' :: (serVal v ++ serObjTail fs)), rfl, by decide⟩

mutual

/-- Unique readability of serialized values: two serializations that
agree as streams (with delimiter-headed continuations) come from the
same undef-free value and the same continuation. -/
theorem serVal_split : ∀ (u v : JVal) (t1 t2 : List Char),
    ufVal u = true → ufVal v = true → delimOk t1 → delimOk t2 →
    serVal u ++ t1 = serVal v ++ t2 → u = v ∧ t1 = t2
  | jundef, _, _, _ => fun hu _ _ _ _ => by simp [ufVal] at hu
  | jnull, v, t1, t2 => fun hu hv d1 d2 heq => by
      have hT := serVal_head_eq heq
      cases v with
      | jnull =>
          simp only [serVal] at heq
          simp at heq
          exact ⟨rfl, heq⟩
      | jundef => exact absurd rfl (ufVal_ne_undef hv)
      | jbool b => simp [headTag] at hT
      | jnum m => simp [headTag] at hT
      | jstr s2 => simp [headTag] at hT
      | jarr ys => simp [headTag] at hT
      | jobj gs => simp [headTag] at hT
  | jbool b, v, t1, t2 => fun hu hv d1 d2 heq => by
      have hT := serVal_head_eq heq
      cases v with
      | jbool b2 =>
          cases b <;> cases b2 <;> simp only [serVal] at heq <;> simp at heq
          · exact ⟨rfl, heq⟩
          · exact ⟨rfl, heq⟩
      | jnull => simp [headTag] at hT
      | jundef => simp [headTag] at hT
      | jnum m => simp [headTag] at hT
      | jstr s2 => simp [headTag] at hT
      | jarr ys => simp [headTag] at hT
      | jobj gs => simp [headTag] at hT
  | jnum n, v, t1, t2 => fun hu hv d1 d2 heq => by
      have hT := serVal_head_eq heq
      cases v with
      | jnum m =>
          simp only [serVal] at heq
          obtain ⟨hl, ht⟩ := token_split isNumCh (intChars n) (intChars m) t1 t2
            (intChars_numCh n) (intChars_numCh m)
            (delim_head_not_num d1) (delim_head_not_num d2) heq
          exact ⟨by rw [intChars_inj hl], ht⟩
      | jnull => simp [headTag] at hT
      | jundef => simp [headTag] at hT
      | jbool b => simp [headTag] at hT
      | jstr s2 => simp [headTag] at hT
      | jarr ys => simp [headTag] at hT
      | jobj gs => simp [headTag] at hT
  | jstr s, v, t1, t2 => fun hu hv d1 d2 heq => by
      have hT := serVal_head_eq heq
      cases v with
      | jstr s2 =>
          simp only [serVal] at heq
          obtain ⟨hs, ht⟩ := strLit_split s s2 t1 t2 heq
          exact ⟨by rw [hs], ht⟩
      | jnull => simp [headTag] at hT
      | jundef => simp [headTag] at hT
      | jbool b => simp [headTag] at hT
      | jnum m => simp [headTag] at hT
      | jarr ys => simp [headTag] at hT
      | jobj gs => simp [headTag] at hT
  | jarr xs, v, t1, t2 => fun hu hv d1 d2 heq => by
      have hT := serVal_head_eq heq
      cases v with
      | jarr ys =>
          simp only [serVal, List.cons_append] at heq
          injection heq with _ heq
          simp only [ufVal] at hu hv
          obtain ⟨hxs, ht⟩ := serArrHead_split xs ys t1 t2 hu hv d1 d2 heq
          exact ⟨by rw [hxs], ht⟩
      | jnull => simp [headTag] at hT
      | jundef => simp [headTag] at hT
      | jbool b => simp [headTag] at hT
      | jnum m => simp [headTag] at hT
      | jstr s2 => simp [headTag] at hT
      | jobj gs => simp [headTag] at hT
  | jobj fs, v, t1, t2 => fun hu hv d1 d2 heq => by
      have hT := serVal_head_eq heq
      cases v with
      | jobj gs =>
          simp only [serVal, List.cons_append] at heq
          injection heq with _ heq
          simp only [ufVal] at hu hv
          obtain ⟨hfs, ht⟩ := serObjHead_split fs gs t1 t2 hu hv d1 d2 heq
          exact ⟨by rw [hfs], ht⟩
      | jnull => simp [headTag] at hT
      | jundef => simp [headTag] at hT
      | jbool b => simp [headTag] at hT
      | jnum m => simp [headTag] at hT
      | jstr s2 => simp [headTag] at hT
      | jarr ys => simp [headTag] at hT

/-- Unique readability of array bodies (head form, closing bracket
included). -/
theorem serArrHead_split : ∀ (xs ys : JArr) (t1 t2 : List Char),
    ufArr xs = true → ufArr ys = true → delimOk t1 → delimOk t2 →
    serArrHead xs ++ t1 = serArrHead ys ++ t2 → xs = ys ∧ t1 = t2
  | .nil, .nil, t1, t2 => fun _ _ _ _ heq => by
      simp only [serArrHead] at heq
      simp at heq
      exact ⟨rfl, heq⟩
  | .nil, .cons y ys, t1, t2 => fun _ hv _ _ heq => by
      simp only [serArrHead, List.singleton_append, List.append_assoc] at heq
      obtain ⟨c, cs, hc, hcT⟩ := serVal_head y
      rw [hc, List.cons_append] at heq
      injection heq with h1 _
      rw [← h1] at hcT
      have h6 : chTag ']' = 6 := by decide
      have := headTag_le y
      omega
  | .cons x xs, .nil, t1, t2 => fun hu _ _ _ heq => by
      simp only [serArrHead, List.singleton_append, List.append_assoc] at heq
      obtain ⟨c, cs, hc, hcT⟩ := serVal_head x
      rw [hc, List.cons_append] at heq
      injection heq with h1 _
      rw [h1] at hcT
      have h6 : chTag ']' = 6 := by decide
      have := headTag_le x
      omega
  | .cons x xs, .cons y ys, t1, t2 => fun hu hv d1 d2 heq => by
      simp only [serArrHead, List.append_assoc] at heq
      simp only [ufArr, Bool.and_eq_true] at hu hv
      obtain ⟨cx, csx, hcx, hdx⟩ := serArrTail_head xs
      obtain ⟨cy, csy, hcy, hdy⟩ := serArrTail_head ys
      have dd1 : delimOk (serArrTail xs ++ t1) := by
        rw [hcx, List.cons_append]; exact hdx
      have dd2 : delimOk (serArrTail ys ++ t2) := by
        rw [hcy, List.cons_append]; exact hdy
      obtain ⟨hxy, ht⟩ := serVal_split x y _ _ hu.1 hv.1 dd1 dd2 heq
      obtain ⟨hxs, ht2⟩ := serArrTail_split xs ys t1 t2 hu.2 hv.2 d1 d2 ht
      exact ⟨by rw [hxy, hxs], ht2⟩

/-- Unique readability of array continuations. -/
theorem serArrTail_split : ∀ (xs ys : JArr) (t1 t2 : List Char),
    ufArr xs = true → ufArr ys = true → delimOk t1 → delimOk t2 →
    serArrTail xs ++ t1 = serArrTail ys ++ t2 → xs = ys ∧ t1 = t2
  | .nil, .nil, t1, t2 => fun _ _ _ _ heq => by
      simp only [serArrTail] at heq
      simp at heq
      exact ⟨rfl, heq⟩
  | .nil, .cons y ys, t1, t2 => fun _ _ _ _ heq => by
      simp only [serArrTail] at heq
      simp at heq
  | .cons x xs, .nil, t1, t2 => fun _ _ _ _ heq => by
      simp only [serArrTail] at heq
      simp at heq
  | .cons x xs, .cons y ys, t1, t2 => fun hu hv d1 d2 heq => by
      simp only [serArrTail, List.cons_append, List.append_assoc] at heq
      injection heq with _ heq
      simp only [ufArr, Bool.and_eq_true] at hu hv
      obtain ⟨cx, csx, hcx, hdx⟩ := serArrTail_head xs
      obtain ⟨cy, csy, hcy, hdy⟩ := serArrTail_head ys
      have dd1 : delimOk (serArrTail xs ++ t1) := by
        rw [hcx, List.cons_append]; exact hdx
      have dd2 : delimOk (serArrTail ys ++ t2) := by
        rw [hcy, List.cons_append]; exact hdy
      obtain ⟨hxy, ht⟩ := serVal_split x y _ _ hu.1 hv.1 dd1 dd2 heq
      obtain ⟨hxs, ht2⟩ := serArrTail_split xs ys t1 t2 hu.2 hv.2 d1 d2 ht
      exact ⟨by rw [hxy, hxs], ht2⟩

/-- Unique readability of object bodies (head form, closing brace
included). -/
theorem serObjHead_split : ∀ (fs gs : JObj) (t1 t2 : List Char),
    ufObj fs = true → ufObj gs = true → delimOk t1 → delimOk t2 →
    serObjHead fs ++ t1 = serObjHead gs ++ t2 → fs = gs ∧ t1 = t2
  | .nil, .nil, t1, t2 => fun _ _ _ _ heq => by
      simp only [serObjHead] at heq
      simp at heq
      exact ⟨rfl, heq⟩
  | .nil, .cons k v gs, t1, t2 => fun _ hv _ _ heq => by
      simp only [ufObj, Bool.and_eq_true] at hv
      simp only [serObjHead, if_neg (ufVal_ne_undef hv.1)] at heq
      rw [strLit] at heq
      simp at heq
  | .cons k v fs, .nil, t1, t2 => fun hu _ _ _ heq => by
      simp only [ufObj, Bool.and_eq_true] at hu
      simp only [serObjHead, if_neg (ufVal_ne_undef hu.1)] at heq
      rw [strLit] at heq
      simp at heq
  | .cons k v fs, .cons k2 v2 gs, t1, t2 => fun hu hv d1 d2 heq => by
      simp only [ufObj, Bool.and_eq_true] at hu hv
      simp only [serObjHead, if_neg (ufVal_ne_undef hu.1),
        if_neg (ufVal_ne_undef hv.1), List.cons_append, List.append_assoc] at heq
      obtain ⟨hk, ht⟩ := strLit_split k k2 _ _ heq
      injection ht with _ ht
      obtain ⟨cx, csx, hcx, hdx⟩ := serObjTail_head fs
      obtain ⟨cy, csy, hcy, hdy⟩ := serObjTail_head gs
      have dd1 : delimOk (serObjTail fs ++ t1) := by
        rw [hcx, List.cons_append]; exact hdx
      have dd2 : delimOk (serObjTail gs ++ t2) := by
        rw [hcy, List.cons_append]; exact hdy
      obtain ⟨hvv, ht2⟩ := serVal_split v v2 _ _ hu.1 hv.1 dd1 dd2 ht
      obtain ⟨hfs, ht3⟩ := serObjTail_split fs gs t1 t2 hu.2 hv.2 d1 d2 ht2
      exact ⟨by rw [hk, hvv, hfs], ht3⟩

/-- Unique readability of object continuations. -/
theorem serObjTail_split : ∀ (fs gs : JObj) (t1 t2 : List Char),
    ufObj fs = true → ufObj gs = true → delimOk t1 → delimOk t2 →
    serObjTail fs ++ t1 = serObjTail gs ++ t2 → fs = gs ∧ t1 = t2
  | .nil, .nil, t1, t2 => fun _ _ _ _ heq => by
      simp only [serObjTail] at heq
      simp at heq
      exact ⟨rfl, heq⟩
  | .nil, .cons k v gs, t1, t2 => fun _ hv _ _ heq => by
      simp only [ufObj, Bool.and_eq_true] at hv
      simp only [serObjTail, if_neg (ufVal_ne_undef hv.1)] at heq
      simp at heq
  | .cons k v fs, .nil, t1, t2 => fun hu _ _ _ heq => by
      simp only [ufObj, Bool.and_eq_true] at hu
      simp only [serObjTail, if_neg (ufVal_ne_undef hu.1)] at heq
      simp at heq
  | .cons k v fs, .cons k2 v2 gs, t1, t2 => fun hu hv d1 d2 heq => by
      simp only [ufObj, Bool.and_eq_true] at hu hv
      simp only [serObjTail, if_neg (ufVal_ne_undef hu.1),
        if_neg (ufVal_ne_undef hv.1), List.cons_append, List.append_assoc] at heq
      injection heq with _ heq
      obtain ⟨hk, ht⟩ := strLit_split k k2 _ _ heq
      injection ht with _ ht
      obtain ⟨cx, csx, hcx, hdx⟩ := serObjTail_head fs
      obtain ⟨cy, csy, hcy, hdy⟩ := serObjTail_head gs
      have dd1 : delimOk (serObjTail fs ++ t1) := by
        rw [hcx, List.cons_append]; exact hdx
      have dd2 : delimOk (serObjTail gs ++ t2) := by
        rw [hcy, List.cons_append]; exact hdy
      obtain ⟨hvv, ht2⟩ := serVal_split v v2 _ _ hu.1 hv.1 dd1 dd2 ht
      obtain ⟨hfs, ht3⟩ := serObjTail_split fs gs t1 t2 hu.2 hv.2 d1 d2 ht2
      exact ⟨by rw [hk, hvv, hfs], ht3⟩

end

/-- Injectivity of the serializer on undef-free values. -/
theorem serVal_inj {u v : JVal} (hu : ufVal u = true) (hv : ufVal v = true)
    (h : serVal u = serVal v) : u = v :=
  (serVal_split u v [] [] hu hv trivial trivial (by simp [h])).1

/-- Counterexample to claim C2 as stated: an undefined array element
serializes as null (as JSON.stringify does), while the normalization of
the claim drops undefined only at object keys, so the two snapshots
whose projects arrays hold undefined and null hash identically yet are
not equal after normalization. -/
theorem canonical_hash_counterexample :
    stableStringify (jarr (.cons jundef .nil)) =
      stableStringify (jarr (.cons jnull .nil)) ∧
    specNormalize (jarr (.cons jundef .nil)) ≠
      specNormalize (jarr (.cons jnull .nil)) := by
  decide

/-- Claim C2 (amended: for values in which undefined never occurs as an
array element — it may still occur as an object field value, where both
sides drop it): two values have equal stableStringify results exactly
when they are equal after recursively dropping object keys whose value
is null or undefined and ignoring object key order, with array order,
empty strings and empty collections preserved. -/
theorem canonical_hash_iff (a b : JVal) (ha : nuaVal a = true)
    (hb : nuaVal b = true) :
    stableStringify a = stableStringify b ↔ specNormalize a = specNormalize b := by
  rw [specNormalize_eq_clean a, specNormalize_eq_clean b]
  constructor
  · intro h
    by_cases hua : a = jundef
    · subst hua
      have hb2 : stableStringify b = none := by rw [← h]; rfl
      rw [(stableStringify_eq_none_iff b).mp hb2]
    · have hub : b ≠ jundef := by
        intro hb2
        exact hua ((stableStringify_eq_none_iff a).mp (by rw [h, hb2]; rfl))
      have hca : cleanVal a ≠ jundef := fun hc => hua ((cleanVal_eq_jundef_iff a).mp hc)
      have hcb : cleanVal b ≠ jundef := fun hc => hub ((cleanVal_eq_jundef_iff b).mp hc)
      rw [stableStringify, stableStringify, jsonStringify, jsonStringify,
        if_neg hca, if_neg hcb, Option.some.injEq] at h
      exact serVal_inj (ufVal_cleanVal a ha hua) (ufVal_cleanVal b hb hub)
        (congrArg String.data h)
  · intro h
    rw [stableStringify, stableStringify, h]

/-- Witness for C2 at two concrete snapshots that differ in key order
and null fields yet hash identically. -/
theorem canonical_hash_iff_witness :
    nuaVal (jobj (.cons "b" (jnum 1) (.cons "a" jnull .nil))) = true ∧
    nuaVal (jobj (.cons "a" jundef (.cons "b" (jnum 1) .nil))) = true ∧
    (stableStringify (jobj (.cons "b" (jnum 1) (.cons "a" jnull .nil))) =
        stableStringify (jobj (.cons "a" jundef (.cons "b" (jnum 1) .nil))) ↔
      specNormalize (jobj (.cons "b" (jnum 1) (.cons "a" jnull .nil))) =
        specNormalize (jobj (.cons "a" jundef (.cons "b" (jnum 1) .nil)))) :=
  ⟨by decide, by decide,
   canonical_hash_iff (jobj (.cons "b" (jnum 1) (.cons "a" jnull .nil)))
     (jobj (.cons "a" jundef (.cons "b" (jnum 1) .nil))) (by decide) (by decide)⟩

end Smartcards
